import Mathlib

/-!
Verification of the Mini-Shell command evaluator (src/cmd.c).

The development is a shallow embedding of `cmd.c` into Lean:

* strings are Lean `String`s (C `char *`, with NULL modelled by `Option`);
* the process environment is an association list threaded through the
  evaluator (`getenv` / `setenv` mirror the libc calls as used by the code);
* file descriptors 0/1/2 are modelled by the identifier of the open file
  description they refer to (`dup`/`dup2` copy identifiers, `open` creates
  a fresh identifier); closing is not tracked since no claim depends on it;
* the outside world (which `open` calls succeed, what an exec'd program
  does, whether `chdir` succeeds) is an oracle record `World`;
* process termination (`exit`, killing the calling process) is an
  `Outcome.exited` result, while a normal C `return` is `Outcome.ret`;
* forked children evaluate with a copy of the parent state; their state
  changes are discarded, but their externally visible events (file opens,
  exec attempts) are appended to the parent's trace, since forked children
  share the file system with the parent;
* resource failures that the model does not generate (malloc, fork, pipe,
  dup failures) are assumed absent: every fork and pipe creation succeeds.

Integer exit statuses are C `int`s modelled as `Int`; where a value crosses
an `exit`/`wait` boundary the kernel truncation to the low 8 bits is
modelled by `% 256`.
-/

/-- The environment: an ordered key/value list, mirroring `environ`. -/
def Env : Type := List (String × String)

instance : DecidableEq Env := by
  unfold Env
  infer_instance

/-- Model of libc `getenv`: first binding of the name, if any. -/
def getenv : Env → String → Option String
  | [], _ => none
  | (k, v) :: rest, n => if k = n then some v else getenv rest n

/-- Model of libc `setenv(name, value, 1)`: overwrite or append. -/
def setenv : Env → String → String → Env
  | [], name, value => [(name, value)]
  | (k, v) :: rest, name, value =>
    if k = name then (name, value) :: rest else (k, v) :: setenv rest name value

/-- Characters accepted by `cmd.c` as part of a `$NAME` variable name:
`isalnum(*ptr) || *ptr == '_'` (C locale, hence ASCII letters/digits). -/
def isVarChar (c : Char) : Bool := c.isAlphanum || c = '_'

/-- The substitution `expand_variables` performs once a variable name has
been scanned: `getenv` the name and append its value, nothing if unset. -/
def varValue (env : Env) (name : List Char) : List Char :=
  match getenv env (String.mk name) with
  | some v => v.data
  | none => []

/-- The scanning loop of `expand_variables` in `cmd.c`, fused into one
structural recursion over the input.  The second argument is `none` while
control is in the outer copying loop, and `some acc` while control is in
the inner loop that accumulates a variable name (`acc` is the name read so
far).  On a `$` the scanner enters name mode; a name ends at the first
non-name character, which is then re-examined by the outer loop exactly as
`ptr` is in the C code (in particular it may itself start a new `$NAME`). -/
def expandLoop (env : Env) : List Char → Option (List Char) → List Char
  | [], none => []
  | [], some acc => varValue env acc
  | c :: cs, none =>
    if c = '$' then expandLoop env cs (some [])
    else c :: expandLoop env cs none
  | c :: cs, some acc =>
    if isVarChar c then expandLoop env cs (some (acc ++ [c]))
    else if c = '$' then varValue env acc ++ expandLoop env cs (some [])
    else varValue env acc ++ c :: expandLoop env cs none

/-- The function `expand_variables` from `cmd.c` (allocation failure is not modelled,
and the PATH_MAX output bound and 128-byte name buffer are not modelled). -/
def expand_variables (env : Env) (input : String) : String :=
  String.mk (expandLoop env input.data none)

/-- The single quote character (ASCII 39). -/
def squote : Char := Char.ofNat 39

/-- The double quote character (ASCII 34). -/
def dquote : Char := Char.ofNat 34

/-- The copying loop of `remove_quotes`: keep exactly the characters that
are neither a single quote nor a double quote. -/
def removeQuotesChars : List Char → List Char
  | [] => []
  | c :: cs =>
    if c ≠ squote ∧ c ≠ dquote then c :: removeQuotesChars cs
    else removeQuotesChars cs

/-- The function `remove_quotes` from `cmd.c` (allocation failure not modelled). -/
def remove_quotes (input : String) : String :=
  String.mk (removeQuotesChars input.data)

/-- Expansion as the spec words it: scan left to right; on `$`, consume a
MAXIMAL run of alphanumeric/underscore characters as a variable name and
substitute that variable's environment value — the empty string when the
variable is unset; copy every other character verbatim.  This definition
transcribes the spec sentence and is compared against the code's
`expand_variables`. -/
def expandSpecChars (env : Env) : List Char → List Char
  | [] => []
  | c :: cs =>
    if c = '$' then
      varValue env (cs.takeWhile isVarChar) ++ expandSpecChars env (cs.dropWhile isVarChar)
    else c :: expandSpecChars env cs
termination_by l => l.length
decreasing_by
  · have h : (List.dropWhile isVarChar cs).length ≤ cs.length := by
      induction cs with
      | nil => simp
      | cons x xs ih =>
        rw [List.dropWhile_cons]
        by_cases hp : isVarChar x
        · simp only [hp, if_pos]
          exact Nat.le_succ_of_le ih
        · simp [hp]
    exact Nat.lt_succ_of_le h
  · simp

/-- The spec-side expansion on strings. -/
def expand_spec (env : Env) (input : String) : String :=
  String.mk (expandSpecChars env input.data)

/-- How an exec'd external program (or a process image generally) ends:
either a normal `exit` with a code, or death by a signal. -/
inductive Termination
  | exited (code : Nat)
  | signaled (sig : Nat)
deriving DecidableEq

/-- Oracles for the parts of the OS the evaluator interacts with:
which `open` calls succeed, what an exec'd program does (`none` means
`execvp` itself fails, e.g. program not found), and which `chdir` calls
succeed.  Allocation, fork, pipe and dup failures are not modelled. -/
structure World where
  openRead : String → Bool
  openWrite : String → Bool
  exec : String → List String → Option Termination
  chdirOk : String → Bool

/-- The open file descriptions the three standard descriptors refer to.
`dup`/`dup2` copy an identifier; `open` creates a fresh one. -/
structure FdState where
  stdin : Nat
  stdout : Nat
  stderr : Nat
deriving DecidableEq

/-- Mutable per-process state threaded through the evaluator.  `nextId`
is the next fresh open-file-description identifier. -/
structure PState where
  env : Env
  fds : FdState
  nextId : Nat
deriving DecidableEq

/-- Write-open disposition selected by `get_io_flags`. -/
inductive WriteMode
  | trunc
  | append
deriving DecidableEq

/-- The function `get_io_flags` from `cmd.c`: `O_APPEND` when the queried append flag is
set, `O_TRUNC` otherwise (always together with `O_WRONLY | O_CREAT`). -/
def get_io_flags (appendFlag : Bool) : WriteMode :=
  if appendFlag then WriteMode.append else WriteMode.trunc

/-- Externally visible actions a (possibly forked) process performs while
the evaluator runs: file opens for redirection, exec attempts, environment
assignments and builtin runs. -/
inductive Event
  | openedIn (path : String)
  | openedCombined (path : String) (mode : WriteMode)
  | openedOut (path : String) (mode : WriteMode)
  | openedErr (path : String) (mode : WriteMode)
  | execed (prog : String) (args : List String)
  | assigned (name value : String)
  | ranBuiltin (name : String)
deriving DecidableEq

/-- A `simple_command_t`: verb word (NULL collapsed into `Option`),
parameter words, the three optional redirect targets (their raw strings),
and the two append bits of `io_flags`.  The C `in` field is named `inT`
here because `in` is reserved in Lean. -/
structure SimpleCommand where
  verb : Option String
  params : List String
  inT : Option String
  out : Option String
  err : Option String
  appendOut : Bool
  appendErr : Bool
deriving DecidableEq

/-- Result of `handle_redirection`: `exitCode = some e` means the function
called `exit(e)`, terminating the calling process; otherwise `st` is the
updated descriptor state.  `trace` records the opens that happened before
the function returned or exited. -/
structure RedirResult where
  exitCode : Option Nat
  st : PState
  trace : List Event
deriving DecidableEq

/-- Input-redirection step of `handle_redirection`: expand the target,
open it read-only, `exit(EXIT_FAILURE)` if the open fails, otherwise
`dup2` the new descriptor onto stdin.  A missing target is skipped. -/
def redirIn (w : World) (cmd : SimpleCommand) (st : PState) : RedirResult :=
  match cmd.inT with
  | none => ⟨none, st, []⟩
  | some p =>
    let path := expand_variables st.env p
    if w.openRead path then
      ⟨none,
       { st with fds := { st.fds with stdin := st.nextId }, nextId := st.nextId + 1 },
       [Event.openedIn path]⟩
    else ⟨some 1, st, []⟩

/-- Independent output/error redirection steps of `handle_redirection`
(the `else` branch of the combined case): each present target is expanded,
opened per its own append flag, `dup2`-ed onto its stream; a failed open
calls `exit(EXIT_FAILURE)`. -/
def redirIndep (w : World) (cmd : SimpleCommand) (st : PState) : RedirResult :=
  let afterOut : RedirResult :=
    match cmd.out with
    | none => ⟨none, st, []⟩
    | some o =>
      let path := expand_variables st.env o
      if w.openWrite path then
        ⟨none,
         { st with fds := { st.fds with stdout := st.nextId }, nextId := st.nextId + 1 },
         [Event.openedOut path (get_io_flags cmd.appendOut)]⟩
      else ⟨some 1, st, []⟩
  match afterOut.exitCode with
  | some e => ⟨some e, afterOut.st, afterOut.trace⟩
  | none =>
    match cmd.err with
    | none => afterOut
    | some e =>
      let st1 := afterOut.st
      let path := expand_variables st1.env e
      if w.openWrite path then
        ⟨none,
         { st1 with fds := { st1.fds with stderr := st1.nextId }, nextId := st1.nextId + 1 },
         afterOut.trace ++ [Event.openedErr path (get_io_flags cmd.appendErr)]⟩
      else ⟨some 1, afterOut.st, afterOut.trace⟩

/-- The output/error part of `handle_redirection`: the combined branch is
taken when `cmd->out && cmd->err && strcmp(cmd->out->string,
cmd->err->string) == 0` — the RAW target strings are compared; only then
is the (single) open target expanded.  The combined open uses the OUT
append flag and the descriptor is `dup2`-ed onto both stdout and stderr;
otherwise the two targets are handled independently.
`exit(EXIT_FAILURE)` on a failed open. -/
def redirOutErr (w : World) (cmd : SimpleCommand) (st1 : PState) : RedirResult :=
  let combined : Bool :=
    match cmd.out, cmd.err with
    | some o, some e => o = e
    | _, _ => false
  if combined then
    match cmd.out with
    | some o =>
      let path := expand_variables st1.env o
      if w.openWrite path then
        ⟨none,
         { st1 with
           fds := { st1.fds with stdout := st1.nextId, stderr := st1.nextId },
           nextId := st1.nextId + 1 },
         [Event.openedCombined path (get_io_flags cmd.appendOut)]⟩
      else ⟨some 1, st1, []⟩
    | none => ⟨none, st1, []⟩
  else redirIndep w cmd st1

/-- The function `handle_redirection` from `cmd.c`: the input step (which exits the
process when its open fails), then the combined-or-independent
output/error step. -/
def handle_redirection (w : World) (cmd? : Option SimpleCommand) (st : PState) : RedirResult :=
  match cmd? with
  | none => ⟨none, st, []⟩
  | some cmd =>
    let r1 := redirIn w cmd st
    match r1.exitCode with
    | some e => ⟨some e, r1.st, r1.trace⟩
    | none =>
      let r2 := redirOutErr w cmd r1.st
      ⟨r2.exitCode, r2.st, r1.trace ++ r2.trace⟩

/-- Modelled from the spec: `get_word` is defined in the repository's
`utils.c`, which is not present under src/; per the spec (sections 4.1 and
6) tokens handed to the evaluator get `$NAME` expansion applied by Text
Expansion.  A word is modelled as its string with variables expanded. -/
def get_word (env : Env) (s : String) : String :=
  expand_variables env s

/-- The test `strchr(word, '=') != NULL` of `parse_simple`. -/
def containsEq (word : String) : Bool :=
  word.data.any (fun c => c = '=')

/-- The two `strtok_r(…, "=", …)` calls of the assignment branch of
`parse_simple`: the first token is the maximal run of non-`=` characters
after skipping leading `=`s; the second token is read the same way from
the remainder.  `none` when either token is missing (the C then returns
-1 without calling `setenv`). -/
def strtok2 (word : String) : Option (String × String) :=
  let l := word.data
  let afterD1 := l.dropWhile (fun c => c = '=')
  if afterD1 = [] then none
  else
    let name := afterD1.takeWhile (fun c => ¬ c = '=')
    let rest := (afterD1.dropWhile (fun c => ¬ c = '=')).drop 1
    let afterD2 := rest.dropWhile (fun c => c = '=')
    if afterD2 = [] then none
    else some (String.mk name, String.mk (afterD2.takeWhile (fun c => ¬ c = '=')))

/-- The function `shell_cd` from `cmd.c`: with a nonempty first argument, strip quotes
and `chdir` there; otherwise fall back to `HOME` (failing when unset).
Returns the C function's boolean. -/
def shell_cd (w : World) (env : Env) (dir? : Option String) : Bool :=
  match dir? with
  | some d =>
    if ¬ d = "" then w.chdirOk (remove_quotes d)
    else
      match getenv env "HOME" with
      | none => false
      | some h => w.chdirOk h
  | none =>
    match getenv env "HOME" with
    | none => false
    | some h => w.chdirOk h

/-- The builtin verbs recognized by `parse_simple`. -/
def builtinNames : List String := ["cd", "pwd", "exit", "quit"]

/-- How a `parse_simple` call ended: a normal C `return` of a status with
the resulting process state, or termination of the calling process via
`exit` (from `shell_exit` or from a failed open inside
`handle_redirection`). -/
inductive Outcome
  | exited (code : Nat)
  | ret (status : Int) (st : PState)
deriving DecidableEq

/-- Which dispatch path `parse_simple` took: the null-verb rejection, the
assignment branch, a builtin, or the fork/exec external path. -/
inductive Dispatch
  | rejected
  | assignment
  | builtin (name : String)
  | external (prog : String)
deriving DecidableEq

/-- Result of `parse_simple`: outcome, dispatch path, event trace. -/
structure SimpleResult where
  outcome : Outcome
  action : Dispatch
  trace : List Event
deriving DecidableEq

/-- Exit code of a process that runs computation ending in outcome `o`
and, if the computation returns normally with status `s`, calls `exit(s)`:
the kernel keeps the low 8 bits. -/
def waitCode (o : Outcome) : Nat :=
  match o with
  | Outcome.exited k => k % 256
  | Outcome.ret s _ => ((s % 256).toNat) % 256

/-- The function `parse_simple` from `cmd.c`.

1. `!s || !s->verb || !s->verb->string` returns -1 (the two NULL levels of
   `s->verb` and `s->verb->string` are collapsed into one `Option`).
2. A word containing `=` is an assignment: the two `strtok_r` tokens are
   extracted; if both exist, `setenv` runs (always succeeding in the
   model, returning 0), else the branch returns -1.
3. A builtin word saves the current stdout/stderr descriptors, applies
   redirection IN THE CURRENT PROCESS (a failed open there exits the whole
   shell), runs the builtin (`exit`/`quit` terminate the process with
   status 0 before any restore), then restores stdout and stderr — stdin
   is neither saved nor restored.
4. Otherwise fork: the child applies redirection (a failed open exits the
   child with EXIT_FAILURE), builds `argv` (modelled from the spec: the
   word followed by the parameters — `get_argv` lives in the missing
   `utils.c`) and calls `execvp`; exec failure makes the child exit with
   EXIT_FAILURE.  The parent waits: a normally exited child's code is
   returned, abnormal termination returns 1. -/
def parse_simple (w : World) (s? : Option SimpleCommand) (st : PState) : SimpleResult :=
  match s? with
  | none => ⟨Outcome.ret (-1) st, Dispatch.rejected, []⟩
  | some s =>
    match s.verb with
    | none => ⟨Outcome.ret (-1) st, Dispatch.rejected, []⟩
    | some vstr =>
      let word := get_word st.env vstr
      if containsEq word then
        match strtok2 word with
        | some (name, value) =>
          ⟨Outcome.ret 0 { st with env := setenv st.env name value }, Dispatch.assignment,
           [Event.assigned name value]⟩
        | none => ⟨Outcome.ret (-1) st, Dispatch.assignment, []⟩
      else if word ∈ builtinNames then
        let savedOut := st.fds.stdout
        let savedErr := st.fds.stderr
        let rd := handle_redirection w (some s) st
        match rd.exitCode with
        | some e => ⟨Outcome.exited e, Dispatch.builtin word, rd.trace⟩
        | none =>
          if word = "exit" ∨ word = "quit" then
            ⟨Outcome.exited 0, Dispatch.builtin word, rd.trace ++ [Event.ranBuiltin word]⟩
          else
            let result : Int :=
              if word = "cd" then
                if shell_cd w rd.st.env s.params.head? then 0 else 1
              else 0
            let st2 :=
              { rd.st with fds := { rd.st.fds with stdout := savedOut, stderr := savedErr } }
            ⟨Outcome.ret result st2, Dispatch.builtin word, rd.trace ++ [Event.ranBuiltin word]⟩
      else
        let rd := handle_redirection w (some s) st
        let childTerm : Termination :=
          match rd.exitCode with
          | some e => Termination.exited (e % 256)
          | none =>
            match w.exec word s.params with
            | none => Termination.exited 1
            | some (Termination.exited k) => Termination.exited (k % 256)
            | some (Termination.signaled n) => Termination.signaled n
        let tr := rd.trace ++
          (match rd.exitCode with
           | some _ => []
           | none => [Event.execed word s.params])
        match childTerm with
        | Termination.exited k => ⟨Outcome.ret (Int.ofNat k) st, Dispatch.external word, tr⟩
        | Termination.signaled _ => ⟨Outcome.ret 1 st, Dispatch.external word, tr⟩

/-- Operator kinds of a `command_t` node (`OP_NONE` is represented by the
`Cmd.simple` constructor). -/
inductive OpKind
  | parallel
  | sequential
  | condZero
  | condNZero
  | pipe
deriving DecidableEq

/-- A `command_t` tree: a simple command (whose `scmd` pointer may be
NULL) or an operator node with two children. -/
inductive Cmd
  | simple (s? : Option SimpleCommand)
  | op (k : OpKind) (c1 c2 : Cmd)
deriving DecidableEq

/-- Result of evaluating a command node in the calling process. -/
structure CmdResult where
  outcome : Outcome
  trace : List Event
deriving DecidableEq

/-- Macro `WIFEXITED`: did the waited-for process terminate normally? -/
def wifexited : Termination → Bool
  | Termination.exited _ => true
  | Termination.signaled _ => false

/-- Macro `WEXITSTATUS`: the exit code of a normally terminated process (the
value for an abnormally terminated one is never consulted by `cmd.c`). -/
def wexitstatus : Termination → Nat
  | Termination.exited k => k
  | Termination.signaled _ => 0

/-- Termination of a forked child that runs `exit(v)` on the value `v` of
an evaluation with outcome `o` (or that already exited inside the
evaluation): always a normal exit carrying the low 8 bits of the value,
since the evaluator itself never raises signals. -/
def exitTermination (o : Outcome) : Termination :=
  Termination.exited (waitCode o)

/-- Descriptor state of the first (producer) child of `run_on_pipe`: the
pipe's two fresh descriptions are created (read end first), the write end
is `dup2`-ed onto the child's stdout. -/
def pipeProducerState (st : PState) : PState :=
  { st with fds := { st.fds with stdout := st.nextId + 1 }, nextId := st.nextId + 2 }

/-- Descriptor state of the second (consumer) child of `run_on_pipe`: the
pipe's read end is `dup2`-ed onto the child's stdin. -/
def pipeConsumerState (st : PState) : PState :=
  { st with fds := { st.fds with stdin := st.nextId }, nextId := st.nextId + 2 }

/-- The function `parse_command` on the operator cases of `cmd.c`, with the top-level
NULL/level guard factored out into `parse_command` below (every internal
recursive call passes the current node as non-NULL father, so the guard
never fires on them).  Forks and pipe creation always succeed in the
model, hence:

* `OP_PARALLEL` (`run_in_parallel`): both children run `parse_command`
  and `exit` with its value; the parent returns 0 when both children are
  `WIFEXITED` (`run_in_parallel` returned true) and -1 otherwise.
  Children's state changes are discarded by fork isolation.
* `OP_SEQUENTIAL`: left's status discarded, right's returned; the left
  runs in the calling process, so if it exits (e.g. `exit` builtin) the
  whole process exits.
* `OP_CONDITIONAL_ZERO` (&&): right runs only when left returned 0;
  otherwise the C returns 0.
* `OP_CONDITIONAL_NZERO` (||): right runs only when left returned
  nonzero; otherwise the C returns 0.
* `OP_PIPE` (`run_on_pipe`): both children run with the pipe descriptors
  installed; the parent returns 0 when the consumer child exited normally
  with code 0, and -1 otherwise. -/
def evalCmd (w : World) : Cmd → PState → CmdResult
  | Cmd.simple s?, st =>
    let r := parse_simple w s? st
    ⟨r.outcome, r.trace⟩
  | Cmd.op OpKind.parallel c1 c2, st =>
    let r1 := evalCmd w c1 st
    let r2 := evalCmd w c2 st
    let ok := wifexited (exitTermination r1.outcome) && wifexited (exitTermination r2.outcome)
    ⟨Outcome.ret (if ok then 0 else -1) st, r1.trace ++ r2.trace⟩
  | Cmd.op OpKind.sequential c1 c2, st =>
    let r1 := evalCmd w c1 st
    match r1.outcome with
    | Outcome.exited k => ⟨Outcome.exited k, r1.trace⟩
    | Outcome.ret _ st1 =>
      let r2 := evalCmd w c2 st1
      ⟨r2.outcome, r1.trace ++ r2.trace⟩
  | Cmd.op OpKind.condZero c1 c2, st =>
    let r1 := evalCmd w c1 st
    match r1.outcome with
    | Outcome.exited k => ⟨Outcome.exited k, r1.trace⟩
    | Outcome.ret s1 st1 =>
      if s1 = 0 then
        let r2 := evalCmd w c2 st1
        ⟨r2.outcome, r1.trace ++ r2.trace⟩
      else ⟨Outcome.ret 0 st1, r1.trace⟩
  | Cmd.op OpKind.condNZero c1 c2, st =>
    let r1 := evalCmd w c1 st
    match r1.outcome with
    | Outcome.exited k => ⟨Outcome.exited k, r1.trace⟩
    | Outcome.ret s1 st1 =>
      if ¬ s1 = 0 then
        let r2 := evalCmd w c2 st1
        ⟨r2.outcome, r1.trace ++ r2.trace⟩
      else ⟨Outcome.ret 0 st1, r1.trace⟩
  | Cmd.op OpKind.pipe c1 c2, st =>
    let r1 := evalCmd w c1 (pipeProducerState st)
    let r2 := evalCmd w c2 (pipeConsumerState st)
    let t2 := exitTermination r2.outcome
    let ok := wifexited t2 && wexitstatus t2 = 0
    ⟨Outcome.ret (if ok then 0 else -1) st, r1.trace ++ r2.trace⟩

/-- The function `parse_command` from `cmd.c`: the NULL / father-level guard, then the
simple case or the operator dispatch of `evalCmd`. -/
def parse_command (w : World) (c? : Option Cmd) (level : Nat) (hasFather : Bool)
    (st : PState) : CmdResult :=
  match c? with
  | none => ⟨Outcome.ret (-1) st, []⟩
  | some c =>
    if hasFather = false ∧ ¬ level = 0 then ⟨Outcome.ret (-1) st, []⟩
    else evalCmd w c st

/-- Initial state used by the concrete instances below: empty environment,
the standard descriptors referring to descriptions 0, 1 and 2, and 10 as
the next fresh description identifier. -/
def stInit : PState := ⟨[], ⟨0, 1, 2⟩, 10⟩

/-- State whose environment binds both `A` and `B` to `f`. -/
def stAB : PState := ⟨[("A", "f"), ("B", "f")], ⟨0, 1, 2⟩, 10⟩

/-- State whose environment binds `A` to `x`. -/
def stA : PState := ⟨[("A", "x")], ⟨0, 1, 2⟩, 10⟩

/-- World where every open and chdir succeeds and every `execvp` fails. -/
def wAll : World := ⟨fun _ => true, fun _ => true, fun _ _ => none, fun _ => true⟩

/-- World where opening a file for reading always fails. -/
def wNoRead : World := ⟨fun _ => false, fun _ => true, fun _ _ => none, fun _ => true⟩

/-- World where program `p0` exits with 0, `p2` with 2 and `p5` with 5. -/
def wDemo : World :=
  ⟨fun _ => true, fun _ => true,
   fun p _ =>
     if p = "p0" then some (Termination.exited 0)
     else if p = "p2" then some (Termination.exited 2)
     else if p = "p5" then some (Termination.exited 5)
     else none,
   fun _ => true⟩

/-- A simple command that just runs program `v`, no redirections. -/
def runCmd (v : String) : SimpleCommand := ⟨some v, [], none, none, none, false, false⟩

/-- Leaf command running `p0` (exit status 0 under `wDemo`). -/
def cmdP0 : Cmd := Cmd.simple (some (runCmd "p0"))

/-- Leaf command running `p2` (exit status 2 under `wDemo`). -/
def cmdP2 : Cmd := Cmd.simple (some (runCmd "p2"))

/-- Leaf command running `p5` (exit status 5 under `wDemo`). -/
def cmdP5 : Cmd := Cmd.simple (some (runCmd "p5"))

/-- The builtin `pwd` with an input redirect from file `f`. -/
def sPwdIn : SimpleCommand := ⟨some "pwd", [], some "f", none, none, false, false⟩

/-- A command whose output target `$A` and error target `$B` are distinct
raw strings that expand to the same file name under `stAB`. -/
def sDollar : SimpleCommand := ⟨some "x", [], none, some "$A", some "$B", false, false⟩

/-- A command with output and error both targeting the raw string `$A`. -/
def sDollarSame : SimpleCommand := ⟨some "x", [], none, some "$A", some "$A", false, false⟩

/-- The assignment verb with an empty value: `A=`. -/
def sAssignEmpty : SimpleCommand := ⟨some "A=", [], none, none, none, false, false⟩

/-- The assignment verb whose value contains `=`: `A=b=c`. -/
def sAssignBC : SimpleCommand := ⟨some "A=b=c", [], none, none, none, false, false⟩

/-- The assignment `A=b`. -/
def sAssignAB : SimpleCommand := ⟨some "A=b", [], none, none, none, false, false⟩

/-- The assignment verb whose value is a variable reference: `A=$X`. -/
def sAssignDollar : SimpleCommand := ⟨some "A=$X", [], none, none, none, false, false⟩

/-- A simple command whose verb is the empty string. -/
def sEmptyVerb : SimpleCommand := ⟨some "", [], none, none, none, false, false⟩

theorem dropWhile_length_le (p : Char → Bool) (l : List Char) :
    (l.dropWhile p).length ≤ l.length := by
  induction l with
  | nil => simp
  | cons c cs ih =>
    rw [List.dropWhile_cons]
    by_cases h : p c
    · simp only [h, if_pos]
      exact Nat.le_succ_of_le ih
    · simp [h]

theorem expandLoop_some (env : Env) (l : List Char) : ∀ acc : List Char,
    expandLoop env l (some acc) =
      varValue env (acc ++ l.takeWhile isVarChar) ++
        expandLoop env (l.dropWhile isVarChar) none := by
  induction l with
  | nil => intro acc; simp [expandLoop]
  | cons c cs ih =>
    intro acc
    by_cases h : isVarChar c
    · rw [show expandLoop env (c :: cs) (some acc) = expandLoop env cs (some (acc ++ [c])) by
        simp [expandLoop, h]]
      rw [ih]
      rw [List.takeWhile_cons, List.dropWhile_cons]
      simp [h]
    · rw [List.takeWhile_cons, List.dropWhile_cons]
      simp only [h]
      by_cases hd : c = '$'
      · subst hd
        simp [expandLoop, h]
      · simp [expandLoop, h, hd]

theorem expandLoop_none_eq_spec (env : Env) :
    ∀ (n : Nat) (l : List Char), l.length ≤ n →
      expandLoop env l none = expandSpecChars env l := by
  intro n
  induction n with
  | zero =>
    intro l hl
    have : l = [] := List.length_eq_zero.mp (Nat.le_zero.mp hl)
    subst this
    simp [expandLoop, expandSpecChars]
  | succ n ih =>
    intro l hl
    match l with
    | [] => simp [expandLoop, expandSpecChars]
    | c :: cs =>
      have hcs : cs.length ≤ n := Nat.le_of_succ_le_succ hl
      by_cases hd : c = '$'
      · subst hd
        rw [show expandLoop env ('$' :: cs) none = expandLoop env cs (some []) by
          simp [expandLoop]]
        rw [expandLoop_some]
        rw [expandSpecChars]
        simp only [List.nil_append, if_true, eq_self_iff_true]
        rw [ih (cs.dropWhile isVarChar) (Nat.le_trans (dropWhile_length_le isVarChar cs) hcs)]
      · rw [show expandLoop env (c :: cs) none = c :: expandLoop env cs none by
          simp [expandLoop, hd]]
        rw [expandSpecChars]
        simp only [hd, if_false]
        rw [ih cs hcs]

theorem removeQuotesChars_no_quote (l : List Char) :
    ∀ c ∈ removeQuotesChars l, ¬ c = squote ∧ ¬ c = dquote := by
  induction l with
  | nil => simp [removeQuotesChars]
  | cons x xs ih =>
    by_cases h : ¬ x = squote ∧ ¬ x = dquote
    · simp only [removeQuotesChars, if_pos h]
      intro c hc
      rcases List.mem_cons.mp hc with hc | hc
      · subst hc; exact h
      · exact ih c hc
    · simp only [removeQuotesChars, if_neg h]
      exact ih

theorem removeQuotesChars_of_no_quote (l : List Char)
    (h : ∀ c ∈ l, ¬ c = squote ∧ ¬ c = dquote) : removeQuotesChars l = l := by
  induction l with
  | nil => simp [removeQuotesChars]
  | cons x xs ih =>
    have hx := h x (List.mem_cons_self x xs)
    simp only [removeQuotesChars, if_pos hx]
    rw [ih (fun c hc => h c (List.mem_cons_of_mem x hc))]

theorem removeQuotesChars_idem (l : List Char) :
    removeQuotesChars (removeQuotesChars l) = removeQuotesChars l :=
  removeQuotesChars_of_no_quote _ (removeQuotesChars_no_quote l)

theorem removeQuotesChars_length (l : List Char) :
    (removeQuotesChars l).length ≤ l.length := by
  induction l with
  | nil => simp [removeQuotesChars]
  | cons x xs ih =>
    by_cases h : ¬ x = squote ∧ ¬ x = dquote
    · simp only [removeQuotesChars, if_pos h, List.length_cons]
      exact Nat.succ_le_succ ih
    · simp only [removeQuotesChars, if_neg h]
      exact Nat.le_succ_of_le ih

theorem expandLoop_no_dollar (env : Env) (l : List Char) (h : ¬ '$' ∈ l) :
    expandLoop env l none = l := by
  induction l with
  | nil => simp [expandLoop]
  | cons c cs ih =>
    have hc : ¬ c = '$' := fun hc => h (hc ▸ List.mem_cons_self c cs)
    have hcs : ¬ '$' ∈ cs := fun hm => h (List.mem_cons_of_mem c hm)
    simp [expandLoop, hc, ih hcs]

theorem takeWhile_all (p : Char → Bool) (l : List Char) (h : ∀ c ∈ l, p c = true) :
    l.takeWhile p = l := by
  induction l with
  | nil => simp
  | cons x xs ih =>
    rw [List.takeWhile_cons, if_pos (h x (List.mem_cons_self x xs))]
    rw [ih (fun c hc => h c (List.mem_cons_of_mem x hc))]

theorem dropWhile_all (p : Char → Bool) (l : List Char) (h : ∀ c ∈ l, p c = true) :
    l.dropWhile p = [] := by
  induction l with
  | nil => simp
  | cons x xs ih =>
    rw [List.dropWhile_cons, if_pos (h x (List.mem_cons_self x xs))]
    exact ih (fun c hc => h c (List.mem_cons_of_mem x hc))

theorem takeWhile_append_stop (p : Char → Bool) (l1 : List Char) (x : Char) (l2 : List Char)
    (h : ∀ c ∈ l1, p c = true) (hx : p x = false) :
    (l1 ++ x :: l2).takeWhile p = l1 := by
  induction l1 with
  | nil => simp [List.takeWhile_cons, hx]
  | cons y ys ih =>
    rw [List.cons_append, List.takeWhile_cons, if_pos (h y (List.mem_cons_self y ys))]
    rw [ih (fun c hc => h c (List.mem_cons_of_mem y hc))]

theorem dropWhile_append_stop (p : Char → Bool) (l1 : List Char) (x : Char) (l2 : List Char)
    (h : ∀ c ∈ l1, p c = true) (hx : p x = false) :
    (l1 ++ x :: l2).dropWhile p = x :: l2 := by
  induction l1 with
  | nil => simp [List.dropWhile_cons, hx]
  | cons y ys ih =>
    rw [List.cons_append, List.dropWhile_cons, if_pos (h y (List.mem_cons_self y ys))]
    exact ih (fun c hc => h c (List.mem_cons_of_mem y hc))

theorem getenv_setenv_same (env : Env) (name value : String) :
    getenv (setenv env name value) name = some value := by
  induction env with
  | nil => simp [setenv, getenv]
  | cons kv rest ih =>
    match kv with
    | (k, v) =>
      by_cases h : k = name
      · simp [setenv, getenv, h]
      · simp only [setenv, if_neg h]
        simp only [getenv, if_neg h]
        exact ih

theorem expand_dollar_name (env : Env) (name : String)
    (h : ∀ c ∈ name.data, isVarChar c = true) :
    expandLoop env ('$' :: name.data) none = varValue env name.data := by
  rw [show expandLoop env ('$' :: name.data) none = expandLoop env name.data (some []) by
    simp [expandLoop]]
  rw [expandLoop_some]
  rw [takeWhile_all isVarChar name.data h, dropWhile_all isVarChar name.data h]
  simp [expandLoop]

/-- C10: quote stripping is idempotent and non-expanding: for every input
string, applying `remove_quotes` twice yields the same string as applying
it once, the output contains no single- or double-quote character, and the
output is at most as long as the input. -/
theorem claim_c10_remove_quotes (s : String) :
    remove_quotes (remove_quotes s) = remove_quotes s ∧
    (∀ c ∈ (remove_quotes s).data, ¬ c = squote ∧ ¬ c = dquote) ∧
    (remove_quotes s).length ≤ s.length := by
  refine ⟨?_, ?_, ?_⟩
  · show String.mk (removeQuotesChars (String.mk (removeQuotesChars s.data)).data) = _
    rw [show (String.mk (removeQuotesChars s.data)).data = removeQuotesChars s.data from rfl]
    rw [removeQuotesChars_idem]
    rfl
  · intro c hc
    exact removeQuotesChars_no_quote s.data c hc
  · show (removeQuotesChars s.data).length ≤ s.data.length
    exact removeQuotesChars_length s.data

/-- C8: the code's `expand_variables` coincides, on every environment and
every input string, with the spec's description of expansion (`expand_spec`:
left-to-right scan, `$` followed by a maximal alphanumeric/underscore run
replaced by the variable's value — empty when unset — and every other
character copied verbatim). -/
theorem claim_c8_expand_matches_spec (env : Env) (input : String) :
    expand_variables env input = expand_spec env input := by
  unfold expand_variables expand_spec
  rw [expandLoop_none_eq_spec env input.data.length input.data (Nat.le_refl _)]

/-- C7: a PARALLEL node always returns success 0 with the parent state
unchanged — in particular independently of the two children's exit codes,
which are not surfaced — and both forked children terminate normally (the
`WIFEXITED` checks of `run_in_parallel` hold). -/
theorem claim_c7_parallel (w : World) (l r : Cmd) (st : PState) :
    (evalCmd w (Cmd.op OpKind.parallel l r) st).outcome = Outcome.ret 0 st ∧
    wifexited (exitTermination (evalCmd w l st).outcome) = true ∧
    wifexited (exitTermination (evalCmd w r st).outcome) = true := by
  refine ⟨?_, rfl, rfl⟩
  simp [evalCmd, wifexited, exitTermination]

/-- C1 counterexample: under `wDemo`, the left child `p2` yields status 2
(nonzero), and the AND node returns status 0 — not the left child's status
2 as the claim states. -/
theorem claim_c1_counterexample :
    (evalCmd wDemo cmdP2 stInit).outcome = Outcome.ret 2 stInit ∧
    (evalCmd wDemo (Cmd.op OpKind.condZero cmdP2 cmdP0) stInit).outcome =
      Outcome.ret 0 stInit ∧
    ¬ ((0 : Int) = 2) := by
  refine ⟨?_, ?_, by decide⟩
  · decide
  · decide

/-- C2 counterexample: under `wDemo`, the consumer `p5` exits with code 5,
and the PIPE node returns status -1 — not the consumer's exit status 5 as
the claim states. -/
theorem claim_c2_counterexample :
    waitCode (evalCmd wDemo cmdP5 (pipeConsumerState stInit)).outcome = 5 ∧
    (evalCmd wDemo (Cmd.op OpKind.pipe cmdP0 cmdP5) stInit).outcome =
      Outcome.ret (-1) stInit ∧
    ¬ ((-1 : Int) = 5) := by
  refine ⟨by decide, by decide, by decide⟩

/-- C1 amended: for an AND node whose left subtree returns status `s1`
with state `st1`: if `s1 = 0` the right subtree is evaluated and its
outcome is the node's result; if `s1` is nonzero the right subtree is not
evaluated (the node's trace is exactly the left subtree's trace and its
result does not depend on the right subtree) and the node returns status
0 — not `s1`. -/
theorem claim_c1_and_amended (w : World) (l r : Cmd) (st st1 : PState) (s1 : Int)
    (h : (evalCmd w l st).outcome = Outcome.ret s1 st1) :
    (s1 = 0 →
      evalCmd w (Cmd.op OpKind.condZero l r) st =
        ⟨(evalCmd w r st1).outcome, (evalCmd w l st).trace ++ (evalCmd w r st1).trace⟩) ∧
    (¬ s1 = 0 →
      evalCmd w (Cmd.op OpKind.condZero l r) st =
        ⟨Outcome.ret 0 st1, (evalCmd w l st).trace⟩) := by
  constructor <;> intro hs <;> simp [evalCmd, h, hs]

theorem claim_c1_and_amended_witness :
    (evalCmd wDemo cmdP2 stInit).outcome = Outcome.ret 2 stInit ∧
    ¬ ((2 : Int) = 0) ∧
    evalCmd wDemo (Cmd.op OpKind.condZero cmdP2 cmdP0) stInit =
      ⟨Outcome.ret 0 stInit, (evalCmd wDemo cmdP2 stInit).trace⟩ :=
  ⟨by decide, by decide,
   (claim_c1_and_amended wDemo cmdP2 cmdP0 stInit stInit 2 (by decide)).2 (by decide)⟩

/-- C2 amended: the status of a PIPE node is 0 when the consumer child's
exit code is 0 and -1 otherwise — it never equals a nonzero consumer exit
code, and it does not depend on the producer subtree at all. -/
theorem claim_c2_pipe_amended (w : World) (l r : Cmd) (st : PState) (k : Nat)
    (h : waitCode (evalCmd w r (pipeConsumerState st)).outcome = k) :
    (evalCmd w (Cmd.op OpKind.pipe l r) st).outcome =
      Outcome.ret (if k = 0 then 0 else -1) st := by
  have ht : exitTermination (evalCmd w r (pipeConsumerState st)).outcome =
      Termination.exited k := by rw [exitTermination, h]
  by_cases hk : k = 0 <;> simp [evalCmd, ht, wifexited, wexitstatus, hk]

theorem claim_c2_pipe_amended_witness :
    waitCode (evalCmd wDemo cmdP5 (pipeConsumerState stInit)).outcome = 5 ∧
    (evalCmd wDemo (Cmd.op OpKind.pipe cmdP0 cmdP5) stInit).outcome =
      Outcome.ret (if (5 : Nat) = 0 then 0 else -1) stInit :=
  ⟨by decide, claim_c2_pipe_amended wDemo cmdP0 cmdP5 stInit 5 (by decide)⟩

/-- C3 counterexample: invoking the builtin `pwd` with an input redirect
whose target cannot be opened terminates the whole shell process (outcome
`exited 1`), although `pwd` is neither `exit` nor `quit` — refuting the
claim that those are the only operations terminating the shell. -/
theorem claim_c3_counterexample :
    (parse_simple wNoRead (some sPwdIn) stInit).outcome = Outcome.exited 1 ∧
    get_word stInit.env "pwd" = "pwd" ∧
    ¬ ("pwd" = "exit" ∨ "pwd" = "quit") := by
  exact ⟨by decide, by decide, by decide⟩

/-- C3 amended: the operations that terminate the whole shell process from
`parse_simple` are exactly the builtins: either `handle_redirection`, run
in the shell's own process for a builtin verb, exits (with code 1) because
a redirect target could not be opened, or the builtin is `exit`/`quit`
(exiting with code 0).  Every other failure is returned as a status. -/
theorem claim_c3_exit_amended (w : World) (s? : Option SimpleCommand) (st : PState) (c : Nat)
    (h : (parse_simple w s? st).outcome = Outcome.exited c) :
    ∃ s vstr, s? = some s ∧ s.verb = some vstr ∧
      get_word st.env vstr ∈ builtinNames ∧
      ((handle_redirection w (some s) st).exitCode = some c ∨
       ((handle_redirection w (some s) st).exitCode = none ∧
        (get_word st.env vstr = "exit" ∨ get_word st.env vstr = "quit") ∧ c = 0)) := by
  match s? with
  | none => simp [parse_simple] at h
  | some s =>
    match hv : s.verb with
    | none => simp [parse_simple, hv] at h
    | some vstr =>
      simp only [parse_simple, hv] at h
      by_cases hce : containsEq (get_word st.env vstr)
      · rcases hst : strtok2 (get_word st.env vstr) with _ | ⟨name, value⟩ <;>
          simp [hce, hst] at h
      · by_cases hb : get_word st.env vstr ∈ builtinNames
        · refine ⟨s, vstr, rfl, hv, hb, ?_⟩
          rcases hrd : (handle_redirection w (some s) st).exitCode with _ | e
          · by_cases hx : get_word st.env vstr = "exit" ∨ get_word st.env vstr = "quit"
            · simp only [hce, if_false, Bool.false_eq_true, hb, if_true, hrd, hx] at h
              right
              refine ⟨rfl, hx, ?_⟩
              simpa using h.symm
            · simp [hce, hb, hrd, hx] at h
          · simp only [hce, Bool.false_eq_true, if_false, hb, if_true, hrd] at h
            left
            simp only [Outcome.exited.injEq] at h
            simp [h]
        · rcases hrd : (handle_redirection w (some s) st).exitCode with _ | e
          · rcases hx : w.exec (get_word st.env vstr) s.params with _ | t
            · simp [hce, hb, hrd, hx] at h
            · rcases t with k | n <;> simp [hce, hb, hrd, hx] at h
          · simp [hce, hb, hrd] at h

theorem claim_c3_exit_amended_witness :
    (parse_simple wNoRead (some sPwdIn) stInit).outcome = Outcome.exited 1 ∧
    (∃ s vstr, some sPwdIn = some s ∧ s.verb = some vstr ∧
      get_word stInit.env vstr ∈ builtinNames ∧
      ((handle_redirection wNoRead (some s) stInit).exitCode = some 1 ∨
       ((handle_redirection wNoRead (some s) stInit).exitCode = none ∧
        (get_word stInit.env vstr = "exit" ∨ get_word stInit.env vstr = "quit") ∧ 1 = 0))) :=
  ⟨by decide, claim_c3_exit_amended wNoRead (some sPwdIn) stInit 1 (by decide)⟩

/-- C4 counterexample: with `A` and `B` both bound to `f`, the targets
`$A` (out) and `$B` (err) have EQUAL expanded strings, yet the combined
branch is not taken: the file `f` is opened twice (separate out and err
opens) and stdout/stderr end up on two different descriptions — refuting
the claim that the combined case is taken exactly when the two EXPANDED
strings are equal. -/
theorem claim_c4_counterexample :
    expand_variables stAB.env "$A" = expand_variables stAB.env "$B" ∧
    handle_redirection wAll (some sDollar) stAB =
      ⟨none, ⟨stAB.env, ⟨0, 10, 11⟩, 12⟩,
       [Event.openedOut "f" WriteMode.trunc, Event.openedErr "f" WriteMode.trunc]⟩ ∧
    ¬ (10 : Nat) = 11 := by
  exact ⟨by decide, by decide, by decide⟩

/-- C4 amended: for a command with both output and error targets (and no
input redirect), the combined branch is taken exactly when the two RAW
target strings are equal: in that case the expanded file is opened once
and the single fresh description is duplicated onto both stdout and
stderr; when the raw strings differ, each target is expanded and opened
separately (two opens), stdout and stderr landing on two distinct fresh
descriptions. -/
theorem claim_c4_combined_amended (w : World) (s : SimpleCommand) (st : PState)
    (o e : String) (ho : s.out = some o) (he : s.err = some e) (hin : s.inT = none) :
    (o = e →
      w.openWrite (expand_variables st.env o) = true →
      handle_redirection w (some s) st =
        ⟨none,
         { st with
             fds := { st.fds with stdout := st.nextId, stderr := st.nextId },
             nextId := st.nextId + 1 },
         [Event.openedCombined (expand_variables st.env o) (get_io_flags s.appendOut)]⟩) ∧
    (¬ o = e →
      w.openWrite (expand_variables st.env o) = true →
      w.openWrite (expand_variables st.env e) = true →
      handle_redirection w (some s) st =
        ⟨none,
         { st with
             fds := { st.fds with stdout := st.nextId, stderr := st.nextId + 1 },
             nextId := st.nextId + 2 },
         [Event.openedOut (expand_variables st.env o) (get_io_flags s.appendOut),
          Event.openedErr (expand_variables st.env e) (get_io_flags s.appendErr)]⟩) := by
  constructor
  · intro hoe hw
    subst hoe
    simp [handle_redirection, redirOutErr, redirIn, hin, ho, he, hw]
  · intro hoe hw1 hw2
    simp [handle_redirection, redirOutErr, redirIn, redirIndep, hin, ho, he, hoe, hw1, hw2]

theorem claim_c4_combined_amended_witness :
    "$A" = "$A" ∧ wAll.openWrite (expand_variables stAB.env "$A") = true ∧
    handle_redirection wAll (some sDollarSame) stAB =
      ⟨none,
       { stAB with
           fds := { stAB.fds with stdout := stAB.nextId, stderr := stAB.nextId },
           nextId := stAB.nextId + 1 },
       [Event.openedCombined (expand_variables stAB.env "$A")
          (get_io_flags sDollarSame.appendOut)]⟩ :=
  ⟨rfl, rfl,
   (claim_c4_combined_amended wAll sDollarSame stAB "$A" "$A" rfl rfl rfl).1 rfl rfl⟩

/-- C5 counterexample: executing `A=` (empty VALUE) with `A` previously
bound to `x` returns -1 WITHOUT setting the variable (a later `$A` still
expands to `x`, not to the empty string); executing `A=b=c` (VALUE
containing `=`) sets `A` to `b`, so `$A` expands to `b`, not to `b=c`;
and executing `A=$X` with `X` unset (VALUE `$X`, nonempty and `=`-free)
returns -1 without setting anything, because the word is expanded to `A=`
BEFORE the split — refuting the claim for empty VALUE, for VALUE
containing `=`, and for VALUE containing `$`. -/
theorem claim_c5_counterexample :
    parse_simple wAll (some sAssignEmpty) stA =
      ⟨Outcome.ret (-1) stA, Dispatch.assignment, []⟩ ∧
    expand_variables stA.env "$A" = "x" ∧
    ¬ ((-1 : Int) = 0) ∧ ¬ ("x" = "") ∧
    parse_simple wAll (some sAssignBC) stA =
      ⟨Outcome.ret 0 ⟨[("A", "b")], stA.fds, stA.nextId⟩, Dispatch.assignment,
       [Event.assigned "A" "b"]⟩ ∧
    expand_variables [("A", "b")] "$A" = "b" ∧
    ¬ ("b" = "b=c") ∧
    get_word stInit.env "A=$X" = "A=" ∧
    parse_simple wAll (some sAssignDollar) stInit =
      ⟨Outcome.ret (-1) stInit, Dispatch.assignment, []⟩ ∧
    expand_variables stInit.env "$A" = "" := by
  exact ⟨by decide, by decide, by decide, by decide, by decide, by decide, by decide,
    by decide, by decide, by decide⟩

theorem strtok2_append (name value : String) (hn : ¬ name.data = [])
    (hne : ¬ '=' ∈ name.data) (hv : ¬ value.data = []) (hveq : ¬ '=' ∈ value.data) :
    strtok2 (name ++ "=" ++ value) = some (name, value) := by
  have hdata : (name ++ "=" ++ value).data = name.data ++ '=' :: value.data := by
    rw [String.data_append, String.data_append]
    simp
  have hallname : ∀ c ∈ name.data, (fun c => decide (¬ c = '=')) c = true := by
    intro c hc
    simp only [decide_eq_true_eq]
    intro heq
    exact hne (heq ▸ hc)
  have hallvalue : ∀ c ∈ value.data, (fun c => decide (¬ c = '=')) c = true := by
    intro c hc
    simp only [decide_eq_true_eq]
    intro heq
    exact hveq (heq ▸ hc)
  have h1 : (name.data ++ '=' :: value.data).dropWhile (fun c => decide (c = '=')) =
      name.data ++ '=' :: value.data := by
    match hnd : name.data, hn with
    | c0 :: cs0, _ =>
      rw [List.cons_append, List.dropWhile_cons]
      have hc0 : ¬ c0 = '=' := by
        intro he
        exact hne (hnd ▸ List.mem_cons.mpr (Or.inl he.symm))
      simp [hc0]
  have h3 : (name.data ++ '=' :: value.data).takeWhile (fun c => decide (¬ c = '=')) =
      name.data :=
    takeWhile_append_stop _ name.data '=' value.data hallname (by simp)
  have h4 : (name.data ++ '=' :: value.data).dropWhile (fun c => decide (¬ c = '=')) =
      '=' :: value.data :=
    dropWhile_append_stop _ name.data '=' value.data hallname (by simp)
  have h5 : value.data.dropWhile (fun c => decide (c = '=')) = value.data := by
    match hvd : value.data, hv with
    | d0 :: ds0, _ =>
      rw [List.dropWhile_cons]
      have hd0 : ¬ d0 = '=' := by
        intro he
        exact hveq (hvd ▸ List.mem_cons.mpr (Or.inl he.symm))
      simp [hd0]
  have h7 : value.data.takeWhile (fun c => decide (¬ c = '=')) = value.data :=
    takeWhile_all _ value.data hallvalue
  unfold strtok2
  simp only [hdata, h1, h3, h4, h5, h7, List.drop_succ_cons, List.drop_zero]
  have hne1 : ¬ (name.data ++ '=' :: value.data = []) := by simp
  have hne2 : ¬ (value.data = []) := hv
  simp [hne1, hne2]

/-- C5 amended: the verb's word is `$NAME`-expanded BEFORE the split, and
the split follows `strtok_r` semantics.  For a verb `NAME=VALUE` where
`NAME` is a nonempty string of variable-name characters and `VALUE` is
nonempty and contains neither `=` nor `$` (so expansion leaves the verb
unchanged), the assignment branch sets `NAME` to `VALUE` and returns 0,
and a subsequent expansion of `$NAME` yields `VALUE`.  Outside that
scope the claim fails: an empty `VALUE` (or one that expansion makes
empty, such as an unset `$X`) makes the branch return -1 without setting
anything, and `strtok` cuts `VALUE` at its first `=`; see the
counterexample. -/
theorem claim_c5_assign_amended (w : World) (s : SimpleCommand) (st : PState)
    (name value : String)
    (hverb : s.verb = some (name ++ "=" ++ value))
    (hn : ¬ name.data = [])
    (hnc : ∀ c ∈ name.data, isVarChar c = true)
    (hv : ¬ value.data = [])
    (hveq : ¬ '=' ∈ value.data)
    (hvd : ¬ '$' ∈ value.data) :
    parse_simple w (some s) st =
      ⟨Outcome.ret 0 { st with env := setenv st.env name value }, Dispatch.assignment,
       [Event.assigned name value]⟩ ∧
    expand_variables (setenv st.env name value) ("$" ++ name) = value := by
  have hnd : ¬ '$' ∈ name.data := fun hm => absurd (hnc '$' hm) (by decide)
  have hne : ¬ '=' ∈ name.data := fun hm => absurd (hnc '=' hm) (by decide)
  have hdata : (name ++ "=" ++ value).data = name.data ++ '=' :: value.data := by
    rw [String.data_append, String.data_append]
    simp
  have hword : get_word st.env (name ++ "=" ++ value) = name ++ "=" ++ value := by
    unfold get_word expand_variables
    rw [hdata, expandLoop_no_dollar]
    · rw [← hdata]
    · intro hm
      rcases List.mem_append.mp hm with hm1 | hm2
      · exact hnd hm1
      · rcases List.mem_cons.mp hm2 with he | hm3
        · exact absurd he (by decide)
        · exact hvd hm3
  have hce : containsEq (name ++ "=" ++ value) = true := by
    unfold containsEq
    rw [hdata]
    apply List.any_eq_true.mpr
    exact ⟨'=', by simp, by simp⟩
  have hst : strtok2 (name ++ "=" ++ value) = some (name, value) :=
    strtok2_append name value hn hne hv hveq
  constructor
  · simp [parse_simple, hverb, hword, hce, hst]
  · unfold expand_variables
    have hdol : ("$" ++ name).data = '$' :: name.data := by
      rw [String.data_append]
      rfl
    rw [hdol, expand_dollar_name _ _ hnc]
    unfold varValue
    have hg : getenv (setenv st.env name value) (String.mk name.data) = some value :=
      getenv_setenv_same st.env name value
    rw [hg]

theorem claim_c5_assign_amended_witness :
    sAssignAB.verb = some ("A" ++ "=" ++ "b") ∧
    parse_simple wAll (some sAssignAB) stInit =
      ⟨Outcome.ret 0 { stInit with env := setenv stInit.env "A" "b" }, Dispatch.assignment,
       [Event.assigned "A" "b"]⟩ ∧
    expand_variables (setenv stInit.env "A" "b") ("$" ++ "A") = "b" := by
  have h := claim_c5_assign_amended wAll sAssignAB stInit "A" "b" (by decide) (by decide)
    (by decide) (by decide) (by decide) (by decide)
  exact ⟨by decide, h.1, h.2⟩

theorem redirIndep_preserves (w : World) (cmd : SimpleCommand) (st : PState) :
    (redirIndep w cmd st).st.env = st.env ∧
    (redirIndep w cmd st).st.fds.stdin = st.fds.stdin := by
  unfold redirIndep
  rcases hout : cmd.out with _ | o
  · rcases herr : cmd.err with _ | e
    · simp
    · by_cases h2 : w.openWrite (expand_variables st.env e) <;> simp [h2]
  · by_cases h1 : w.openWrite (expand_variables st.env o)
    · rcases herr : cmd.err with _ | e
      · simp [h1]
      · by_cases h2 : w.openWrite (expand_variables st.env e) <;> simp [h1, h2]
    · simp [h1]


theorem redirOutErr_preserves (w : World) (cmd : SimpleCommand) (st1 : PState) :
    (redirOutErr w cmd st1).st.env = st1.env ∧
    (redirOutErr w cmd st1).st.fds.stdin = st1.fds.stdin := by
  obtain ⟨v, ps, i, o?, e?, aO, aE⟩ := cmd
  rcases o? with _ | o
  · simpa [redirOutErr] using redirIndep_preserves w ⟨v, ps, i, none, e?, aO, aE⟩ st1
  · rcases e? with _ | e
    · simpa [redirOutErr] using redirIndep_preserves w ⟨v, ps, i, some o, none, aO, aE⟩ st1
    · by_cases hoe : o = e
      · subst hoe
        by_cases hwo : w.openWrite (expand_variables st1.env o) <;>
          simp [redirOutErr, hwo]
      · simpa [redirOutErr, hoe] using
          redirIndep_preserves w ⟨v, ps, i, some o, some e, aO, aE⟩ st1

theorem handle_redirection_facts (w : World) (s : SimpleCommand) (st : PState) :
    (handle_redirection w (some s) st).st.env = st.env ∧
    (s.inT = none → (handle_redirection w (some s) st).st.fds.stdin = st.fds.stdin) ∧
    (∀ p, s.inT = some p → w.openRead (expand_variables st.env p) = true →
      (handle_redirection w (some s) st).st.fds.stdin = st.nextId) := by
  obtain ⟨v, ps, i, o?, e?, aO, aE⟩ := s
  rcases i with _ | p
  · have hpre := redirOutErr_preserves w ⟨v, ps, none, o?, e?, aO, aE⟩ st
    refine ⟨?_, fun _ => ?_, fun q hq => by simp at hq⟩
    · simpa [handle_redirection, redirIn] using hpre.1
    · simpa [handle_redirection, redirIn] using hpre.2
  · by_cases hrd : w.openRead (expand_variables st.env p)
    · have hpre := redirOutErr_preserves w ⟨v, ps, some p, o?, e?, aO, aE⟩
        { st with fds := { st.fds with stdin := st.nextId }, nextId := st.nextId + 1 }
      refine ⟨?_, fun hc => by simp at hc, fun q hq hro => ?_⟩
      · simpa [handle_redirection, redirIn, hrd] using hpre.1
      · simpa [handle_redirection, redirIn, hrd] using hpre.2
    · simp [handle_redirection, redirIn, hrd]

/-- C6 counterexample: running the builtin `pwd` with an input redirect
from `f` (which opens fine) leaves the shell's stdin on the newly opened
description 10 after the builtin returns — the pre-invocation stdin was
description 0, so stdin is NOT restored, refuting the claim that all three
standard descriptors are restored. -/
theorem claim_c6_counterexample :
    parse_simple wAll (some sPwdIn) stInit =
      ⟨Outcome.ret 0 ⟨[], ⟨10, 1, 2⟩, 11⟩, Dispatch.builtin "pwd",
       [Event.openedIn "f", Event.ranBuiltin "pwd"]⟩ ∧
    stInit.fds.stdin = 0 ∧ ¬ ((10 : Nat) = 0) := by
  exact ⟨by decide, by decide, by decide⟩

/-- C6 amended: after a returning builtin invocation (`cd` or `pwd`) with
successful redirection, stdout and stderr are restored to their
pre-invocation descriptions and the environment is unchanged, but stdin is
NOT restored: with no input target it was never touched, while with an
input target it remains on the freshly opened description, so an input
redirect on a builtin leaks into subsequent shell operation. -/
theorem claim_c6_restore_amended (w : World) (s : SimpleCommand) (st : PState) (vstr : String)
    (hverb : s.verb = some vstr)
    (hbw : get_word st.env vstr = "cd" ∨ get_word st.env vstr = "pwd")
    (hok : (handle_redirection w (some s) st).exitCode = none) :
    (∃ res : Int,
      parse_simple w (some s) st =
        ⟨Outcome.ret res
           { (handle_redirection w (some s) st).st with
               fds := { (handle_redirection w (some s) st).st.fds with
                          stdout := st.fds.stdout, stderr := st.fds.stderr } },
         Dispatch.builtin (get_word st.env vstr),
         (handle_redirection w (some s) st).trace ++
           [Event.ranBuiltin (get_word st.env vstr)]⟩) ∧
    (handle_redirection w (some s) st).st.env = st.env ∧
    (s.inT = none → (handle_redirection w (some s) st).st.fds.stdin = st.fds.stdin) ∧
    (∀ p, s.inT = some p → w.openRead (expand_variables st.env p) = true →
      (handle_redirection w (some s) st).st.fds.stdin = st.nextId) := by
  have hfacts := handle_redirection_facts w s st
  refine ⟨?_, hfacts.1, hfacts.2.1, hfacts.2.2⟩
  rcases hbw with hcd | hpwd
  · refine ⟨if shell_cd w (handle_redirection w (some s) st).st.env s.params.head?
      then 0 else 1, ?_⟩
    have hc1 : containsEq "cd" = false := by decide
    have hc2 : "cd" ∈ builtinNames := by decide
    have hc3 : ¬ ("cd" = "exit" ∨ "cd" = "quit") := by decide
    simp [parse_simple, hverb, hcd, hc1, hc2, hc3, hok]
  · refine ⟨0, ?_⟩
    have hc1 : containsEq "pwd" = false := by decide
    have hc2 : "pwd" ∈ builtinNames := by decide
    have hc3 : ¬ ("pwd" = "exit" ∨ "pwd" = "quit") := by decide
    have hc4 : ¬ "pwd" = "cd" := by decide
    simp [parse_simple, hverb, hpwd, hc1, hc2, hc3, hc4, hok]

theorem claim_c6_restore_amended_witness :
    (sPwdIn.verb = some "pwd" ∧
     (get_word stInit.env "pwd" = "cd" ∨ get_word stInit.env "pwd" = "pwd") ∧
     (handle_redirection wAll (some sPwdIn) stInit).exitCode = none) ∧
    ((∃ res : Int,
      parse_simple wAll (some sPwdIn) stInit =
        ⟨Outcome.ret res
           { (handle_redirection wAll (some sPwdIn) stInit).st with
               fds := { (handle_redirection wAll (some sPwdIn) stInit).st.fds with
                          stdout := stInit.fds.stdout, stderr := stInit.fds.stderr } },
         Dispatch.builtin (get_word stInit.env "pwd"),
         (handle_redirection wAll (some sPwdIn) stInit).trace ++
           [Event.ranBuiltin (get_word stInit.env "pwd")]⟩) ∧
    (handle_redirection wAll (some sPwdIn) stInit).st.env = stInit.env ∧
    (sPwdIn.inT = none →
      (handle_redirection wAll (some sPwdIn) stInit).st.fds.stdin = stInit.fds.stdin) ∧
    (∀ p, sPwdIn.inT = some p →
      wAll.openRead (expand_variables stInit.env p) = true →
      (handle_redirection wAll (some sPwdIn) stInit).st.fds.stdin = stInit.nextId)) :=
  ⟨⟨rfl, Or.inr (by decide), by decide⟩,
   claim_c6_restore_amended wAll sPwdIn stInit "pwd" rfl (Or.inr (by decide)) (by decide)⟩

/-- C9 counterexample: with an empty-string verb (and `execvp` of the
empty name failing, as it always does), `parse_simple` does NOT return the
evaluator error -1: it dispatches to the external path, attempts the exec,
and returns the forked child's failure status 1 — refuting the claim that
an empty verb is rejected without dispatch. -/
theorem claim_c9_counterexample :
    parse_simple wAll (some sEmptyVerb) stInit =
      ⟨Outcome.ret 1 stInit, Dispatch.external "", [Event.execed "" []]⟩ ∧
    ¬ ((1 : Int) = -1) := by
  exact ⟨by decide, by decide⟩

/-- C9 amended: a null command or a null verb is rejected with the
evaluator error -1 and no dispatch, but an EMPTY verb string passes the
null check: it is dispatched as an external command (the exec of the empty
program name is attempted in the forked child, fails, and the child's
failure status 1 — an ordinary child exit code — is returned). -/
theorem claim_c9_verb_amended :
    (∀ (w : World) (st : PState),
       parse_simple w none st = ⟨Outcome.ret (-1) st, Dispatch.rejected, []⟩) ∧
    (∀ (w : World) (s : SimpleCommand) (st : PState), s.verb = none →
       parse_simple w (some s) st = ⟨Outcome.ret (-1) st, Dispatch.rejected, []⟩) ∧
    (∀ (w : World) (s : SimpleCommand) (st : PState),
       s.verb = some "" → s.inT = none → s.out = none → s.err = none →
       w.exec "" s.params = none →
       parse_simple w (some s) st =
         ⟨Outcome.ret 1 st, Dispatch.external "", [Event.execed "" s.params]⟩) := by
  refine ⟨fun w st => rfl, fun w s st hv => by simp [parse_simple, hv],
    fun w s st hv hin hout herr hex => ?_⟩
  have hw : get_word st.env "" = "" := rfl
  have hc1 : containsEq "" = false := by decide
  have hc2 : ¬ ("" ∈ builtinNames) := by decide
  simp [parse_simple, hv, hw, hc1, hc2, handle_redirection, redirOutErr, redirIn,
    redirIndep, hin, hout, herr, hex]

theorem claim_c9_verb_amended_witness :
    (sEmptyVerb.verb = some "" ∧ sEmptyVerb.inT = none ∧ sEmptyVerb.out = none ∧
     sEmptyVerb.err = none ∧ wAll.exec "" sEmptyVerb.params = none) ∧
    parse_simple wAll (some sEmptyVerb) stInit =
      ⟨Outcome.ret 1 stInit, Dispatch.external "", [Event.execed "" sEmptyVerb.params]⟩ :=
  ⟨⟨rfl, rfl, rfl, rfl, rfl⟩,
   claim_c9_verb_amended.2.2 wAll sEmptyVerb stInit rfl rfl rfl rfl rfl⟩
